import Mathlib

/-!
Verification development for the Private-Equity portfolio tracker.

The repository consists of `portfolio_tracker.py` (valuation, alerting,
spreadsheet persistence) and `portfolio_performance_analysis.py` (monthly
returns, risk metrics, drawdown, synthetic history).  All numeric columns in
the source are pandas/numpy float64 values; we embed them as an extended
rational type `ExtR` with explicit positive/negative infinity and NaN, using
IEEE-754 semantics for the arithmetic the source actually performs (NaN
propagation, signed infinities from division by zero, comparisons with NaN
being false) with exact rationals in place of finite floats.  Missing prices
surface as NaN exactly as `Series.map` produces them, and pandas column sums
skip NaN entries (`skipna=True` default).
-/

/-- Extended rational modelling a numpy float64 value: a finite rational,
positive or negative infinity, or NaN. -/
inductive ExtR : Type where
  | fin : ℚ → ExtR
  | pinf : ExtR
  | ninf : ExtR
  | nan : ExtR
deriving DecidableEq

/-- NaN test, mirroring `pandas.isna` on a float64 value. -/
def ExtR.isNan : ExtR → Bool
  | .nan => true
  | _ => false

/-- IEEE-754 negation of a float64 value. -/
def extNeg : ExtR → ExtR
  | .fin q => .fin (-q)
  | .pinf => .ninf
  | .ninf => .pinf
  | .nan => .nan

/-- IEEE-754 addition of float64 values: NaN propagates, opposite infinities
give NaN. -/
def extAdd : ExtR → ExtR → ExtR
  | .nan, _ => .nan
  | _, .nan => .nan
  | .fin a, .fin b => .fin (a + b)
  | .fin _, .pinf => .pinf
  | .fin _, .ninf => .ninf
  | .pinf, .fin _ => .pinf
  | .ninf, .fin _ => .ninf
  | .pinf, .pinf => .pinf
  | .ninf, .ninf => .ninf
  | .pinf, .ninf => .nan
  | .ninf, .pinf => .nan

/-- IEEE-754 subtraction of float64 values. -/
def extSub (a b : ExtR) : ExtR := extAdd a (extNeg b)

/-- IEEE-754 multiplication of float64 values: NaN propagates, infinity times
zero gives NaN, otherwise signs multiply. -/
def extMul : ExtR → ExtR → ExtR
  | .nan, _ => .nan
  | _, .nan => .nan
  | .fin a, .fin b => .fin (a * b)
  | .fin a, .pinf => if 0 < a then .pinf else if a < 0 then .ninf else .nan
  | .fin a, .ninf => if 0 < a then .ninf else if a < 0 then .pinf else .nan
  | .pinf, .fin b => if 0 < b then .pinf else if b < 0 then .ninf else .nan
  | .ninf, .fin b => if 0 < b then .ninf else if b < 0 then .pinf else .nan
  | .pinf, .pinf => .pinf
  | .pinf, .ninf => .ninf
  | .ninf, .pinf => .ninf
  | .ninf, .ninf => .pinf

/-- numpy float64 division: x/0 is a signed infinity for x nonzero, 0/0 is
NaN, NaN propagates, and a finite value divided by an infinity is zero.
numpy emits a RuntimeWarning for these (suppressed in the source by
`warnings.filterwarnings`) but never raises. -/
def extDiv : ExtR → ExtR → ExtR
  | .nan, _ => .nan
  | _, .nan => .nan
  | .fin a, .fin b =>
      if b = 0 then (if a = 0 then .nan else if 0 < a then .pinf else .ninf)
      else .fin (a / b)
  | .fin _, .pinf => .fin 0
  | .fin _, .ninf => .fin 0
  | .pinf, .fin b => if 0 ≤ b then .pinf else .ninf
  | .ninf, .fin b => if 0 ≤ b then .ninf else .pinf
  | .pinf, .pinf => .nan
  | .pinf, .ninf => .nan
  | .ninf, .pinf => .nan
  | .ninf, .ninf => .nan

/-- Python `abs` on a float64 value. -/
def extAbs : ExtR → ExtR
  | .fin q => .fin |q|
  | .pinf => .pinf
  | .ninf => .pinf
  | .nan => .nan

/-- IEEE-754 strict less-than on float64 values: any comparison with NaN is
false. -/
def extLt : ExtR → ExtR → Bool
  | .nan, _ => false
  | _, .nan => false
  | .fin a, .fin b => decide (a < b)
  | .fin _, .pinf => true
  | .fin _, .ninf => false
  | .pinf, _ => false
  | .ninf, .fin _ => true
  | .ninf, .pinf => true
  | .ninf, .ninf => false

/-- pandas `Series.sum()` with its default `skipna=True`: NaN entries are
dropped and the remaining values are added (an all-NaN or empty column sums
to 0.0). -/
def extSumSkipNa : List ExtR → ExtR
  | [] => .fin 0
  | x :: xs => if x.isNan then extSumSkipNa xs else extAdd x (extSumSkipNa xs)

/-- A Python scalar as it appears in the tracker's comparisons: either a
float64 number or a str.  The module-level constant `ALERT_THRESHOLD` is the
str "Percentage" (portfolio_tracker.py line 41). -/
inductive PyVal : Type where
  | num : ExtR → PyVal
  | str : String → PyVal
deriving DecidableEq

/-- Python `>` between a float on the left and a PyVal on the right: numeric
comparison when the right side is a number, a TypeError when it is a str. -/
def pyGtFloat (x : ExtR) (t : PyVal) : Except String Bool :=
  match t with
  | .num y => .ok (extLt y x)
  | .str _ => .error "TypeError: unorderable types float and str"

/-- Python `<` between a float on the left and a PyVal on the right. -/
def pyLtFloat (x : ExtR) (t : PyVal) : Except String Bool :=
  match t with
  | .num y => .ok (extLt x y)
  | .str _ => .error "TypeError: unorderable types float and str"

/-- Python unary `-` on a PyVal: negation for a number, a TypeError for a
str. -/
def pyNeg : PyVal → Except String PyVal
  | .num x => .ok (.num (extNeg x))
  | .str _ => .error "TypeError: bad operand type for unary minus: str"

/-- `ALERT_THRESHOLD = "Percentage"` (portfolio_tracker.py line 41). -/
def ALERT_THRESHOLD : PyVal := .str "Percentage"

/-- One row of the portfolio Excel table: Stock_Symbol, Purchase_Price and
Quantity, as read by `load_portfolio_data`. -/
structure Position where
  symbol : String
  purchase_price : ℚ
  quantity : ℚ
deriving DecidableEq

/-- A portfolio row after `calculate_portfolio_performance` has added the
Current_Price, Current_Value, Total_Investment, Unrealized_PL and
PL_Percentage columns (portfolio_tracker.py lines 90-96). -/
structure PricedRow where
  symbol : String
  purchase_price : ℚ
  quantity : ℚ
  current_price : ExtR
  current_value : ExtR
  total_investment : ℚ
  unrealized_pl : ExtR
  pl_percentage : ExtR
deriving DecidableEq

/-- `Series.map(self.current_prices)` (line 90): a present symbol maps to its
float price, an absent one to NaN. -/
def priceLookup (prices : List (String × ℚ)) (sym : String) : ExtR :=
  match prices.lookup sym with
  | some p => .fin p
  | none => .nan

/-- The per-row column arithmetic of `calculate_portfolio_performance`
(portfolio_tracker.py lines 90-96):
Current_Value = Current_Price * Quantity,
Total_Investment = Purchase_Price * Quantity,
Unrealized_PL = Current_Value - Total_Investment,
PL_Percentage = Unrealized_PL / Total_Investment * 100. -/
def mkPricedRow (prices : List (String × ℚ)) (p : Position) : PricedRow :=
  let cp := priceLookup prices p.symbol
  let cv := extMul cp (.fin p.quantity)
  let ti := p.purchase_price * p.quantity
  let pl := extSub cv (.fin ti)
  { symbol := p.symbol
    purchase_price := p.purchase_price
    quantity := p.quantity
    current_price := cp
    current_value := cv
    total_investment := ti
    unrealized_pl := pl
    pl_percentage := extMul (extDiv pl (.fin ti)) (.fin 100) }

/-- The `daily_report` aggregate built at portfolio_tracker.py lines 98-111
(the run date string, taken from the wall clock, is omitted). -/
structure DailyReport where
  total_investment : ℚ
  total_current_value : ExtR
  total_pl : ExtR
  total_pl_percentage : ExtR
deriving DecidableEq

/-- `calculate_portfolio_performance` (portfolio_tracker.py lines 81-111):
computes the per-row columns and the portfolio totals.  Total_Investment is a
plain float sum (no NaN can occur there); the Current_Value sum skips NaN as
pandas does. -/
def calculate_portfolio_performance (positions : List Position)
    (prices : List (String × ℚ)) : List PricedRow × DailyReport :=
  let rows := positions.map (mkPricedRow prices)
  let ti := (rows.map (fun r => r.total_investment)).sum
  let tcv := extSumSkipNa (rows.map (fun r => r.current_value))
  let tpl := extSub tcv (.fin ti)
  (rows,
    { total_investment := ti
      total_current_value := tcv
      total_pl := tpl
      total_pl_percentage := extMul (extDiv tpl (.fin ti)) (.fin 100) })

/-- An alert record as appended by `check_alerts` (portfolio_tracker.py
lines 126-131); the emoji prefixes of the type strings are elided. -/
structure Alert where
  symbol : String
  type : String
  pl_percentage : ExtR
  current_price : ExtR
deriving DecidableEq

/-- `check_alerts` (portfolio_tracker.py lines 118-133): for each row, if
abs(PL_Percentage) > threshold, append a LOSS alert when
PL_Percentage < -threshold and otherwise a PROFIT alert.  A Python exception
from a comparison aborts the whole call, which the `Except` error channel
models. -/
def check_alerts (threshold : PyVal) : List PricedRow → Except String (List Alert)
  | [] => .ok []
  | row :: rest =>
    match pyGtFloat (extAbs row.pl_percentage) threshold with
    | .error e => .error e
    | .ok false => check_alerts threshold rest
    | .ok true =>
      match pyNeg threshold with
      | .error e => .error e
      | .ok nt =>
        match pyLtFloat row.pl_percentage nt with
        | .error e => .error e
        | .ok isLoss =>
          match check_alerts threshold rest with
          | .error e => .error e
          | .ok alerts =>
            .ok ({ symbol := row.symbol
                   type := if isLoss then "LOSS ALERT" else "PROFIT ALERT"
                   pl_percentage := row.pl_percentage
                   current_price := row.current_price } :: alerts)

/-- The Alert Evaluator contract as the spec words it (section 4.4): one
alert per position whose pl_percentage strictly exceeds the threshold in
absolute value, direction profit when above +threshold and loss when below
-threshold, in input order. -/
def spec_alert (t : ℚ) (r : PricedRow) : Option Alert :=
  match r.pl_percentage with
  | .fin q =>
      if t < q then
        some { symbol := r.symbol, type := "PROFIT ALERT"
               pl_percentage := r.pl_percentage, current_price := r.current_price }
      else if q < -t then
        some { symbol := r.symbol, type := "LOSS ALERT"
               pl_percentage := r.pl_percentage, current_price := r.current_price }
      else none
  | _ => none

/-- A calendar date (year, month, day). -/
structure Date where
  y : ℕ
  m : ℕ
  d : ℕ
deriving DecidableEq

/-- Boolean lexicographic order on dates, the order `sort_values('Date')`
uses. -/
def dateLeB (a b : Date) : Bool :=
  decide (a.y < b.y) ||
    (a.y == b.y && (decide (a.m < b.m) || (a.m == b.m && decide (a.d ≤ b.d))))

/-- Boolean strict lexicographic order on dates. -/
def dateLtB (a b : Date) : Bool :=
  decide (a.y < b.y) ||
    (a.y == b.y && (decide (a.m < b.m) || (a.m == b.m && decide (a.d < b.d))))

/-- One row of the Performance_History sheet: Date, Total_Investment,
Current_Value, Total_PL, Total_PL_Percentage. -/
structure Snapshot where
  date : Date
  total_investment : ℚ
  current_value : ℚ
  total_pl : ℚ
  total_pl_percentage : ℚ
deriving DecidableEq

instance : Inhabited Snapshot := ⟨⟨⟨0, 0, 0⟩, 0, 0, 0, 0⟩⟩

/-- The Performance_History update inside `update_portfolio_excel`
(portfolio_tracker.py lines 330-345): the existing sheet is read and the new
daily summary row is appended with `pd.concat`; no matching by date takes
place. -/
def update_performance_history (existing : List Snapshot) (snapshot : Snapshot) :
    List Snapshot :=
  existing ++ [snapshot]

/-- The Year_Month period key used by `calculate_monthly_returns`
(portfolio_performance_analysis.py line 163): a month counter that orders
(year, month) pairs; months of real datetimes satisfy 1 ≤ m ≤ 12, under
which the key is injective on (year, month). -/
def periodKey (s : Snapshot) : ℕ := s.date.y * 12 + (s.date.m - 1)

/-- One row of the monthly_data frame produced by `calculate_monthly_returns`
(portfolio_performance_analysis.py lines 166-184): per Year_Month group the
last Date, first Total_Investment, last Current_Value, last Total_PL, last
Total_PL_Percentage, plus the Monthly_Return column. -/
structure MonthRow where
  period : ℕ
  date : Date
  total_investment : ℚ
  current_value : ℚ
  total_pl : ℚ
  total_pl_percentage : ℚ
  monthly_return : ExtR
deriving DecidableEq

/-- The distinct Year_Month group keys in ascending order, as
`groupby('Year_Month')` enumerates its groups. -/
def monthKeys (h : List Snapshot) : List ℕ :=
  List.insertionSort (· ≤ ·) (h.map periodKey).dedup

/-- The `.agg` step of `calculate_monthly_returns` for one group key: rows
with that Year_Month, aggregated as Date last, Total_Investment first,
Current_Value last, Total_PL last, Total_PL_Percentage last (lines 166-172).
Monthly_Return is filled in afterwards. -/
def monthAgg (h : List Snapshot) (k : ℕ) : MonthRow :=
  let g := h.filter (fun s => periodKey s == k)
  { period := k
    date := (g.getLast?.getD default).date
    total_investment := (g.head?.getD default).total_investment
    current_value := (g.getLast?.getD default).current_value
    total_pl := (g.getLast?.getD default).total_pl
    total_pl_percentage := (g.getLast?.getD default).total_pl_percentage
    monthly_return := .fin 0 }

/-- `Series.fillna(0)`: NaN becomes 0, everything else (including signed
infinities) is kept. -/
def fillna0 : ExtR → ExtR
  | .nan => .fin 0
  | x => x

/-- `pct_change() * 100` followed by `fillna(0)` for one entry
(portfolio_performance_analysis.py lines 175-176): the leading entry has no
predecessor, so its NaN is filled with 0; otherwise the percent change
(v - p)/p * 100 is taken with float64 semantics and any NaN (only 0/0)
filled with 0. -/
def pctChangeTimes100 (prev : Option ℚ) (v : ℚ) : ExtR :=
  match prev with
  | none => .fin 0
  | some p => fillna0 (extMul (extDiv (.fin (v - p)) (.fin p)) (.fin 100))

/-- Walks the aggregated month rows computing the Monthly_Return column
(portfolio_performance_analysis.py lines 175-176). -/
def withReturns : Option ℚ → List MonthRow → List MonthRow
  | _, [] => []
  | prev, r :: rs =>
      { r with monthly_return := pctChangeTimes100 prev r.total_pl_percentage } ::
        withReturns (some r.total_pl_percentage) rs

/-- `calculate_monthly_returns` (portfolio_performance_analysis.py lines
151-187): group the history by Year_Month, aggregate, compute month-over-month
percent change of Total_PL_Percentage with the first month's NaN filled to 0.
(The Cumulative_Return and display-name columns are pure copies omitted
here.) -/
def calculate_monthly_returns (h : List Snapshot) : List MonthRow :=
  withReturns none ((monthKeys h).map (monthAgg h))

/-- Two snapshots fall in the same calendar (year, month). -/
def sameMonth (a b : Snapshot) : Bool :=
  a.date.y == b.date.y && a.date.m == b.date.m

/-- The spec's wording of the grouping step of `monthlyReturns()`: keep the
last snapshot of each month, which for a date-sorted history means dropping
every snapshot that is followed by another of the same month. -/
def lastPerMonth : List Snapshot → List Snapshot
  | [] => []
  | [s] => [s]
  | s :: s2 :: rest =>
      if sameMonth s s2 then lastPerMonth (s2 :: rest)
      else s :: lastPerMonth (s2 :: rest)

/-- The data the claim specifies for one month: period key, the kept
snapshot's date and Total_PL_Percentage, and the monthly return as the
percent change of Total_PL_Percentage against the prior month (0 for the
first month). -/
def specRow (prev : Option ℚ) (s : Snapshot) : ℕ × Date × ℚ × ExtR :=
  (periodKey s, s.date, s.total_pl_percentage,
    pctChangeTimes100 prev s.total_pl_percentage)

/-- The monthly-return sequence as the spec words it, over the kept
last-of-month snapshots. -/
def specReturns : Option ℚ → List Snapshot → List (ℕ × Date × ℚ × ExtR)
  | _, [] => []
  | prev, s :: rest => specRow prev s :: specReturns (some s.total_pl_percentage) rest

/-- `monthlyReturns()` as specified: last snapshot per (year, month), percent
change of Total_PL_Percentage month over month, first month 0. -/
def monthlyReturnsSpec (h : List Snapshot) : List (ℕ × Date × ℚ × ExtR) :=
  specReturns none (lastPerMonth h)

/-- Projection of a computed month row onto the fields the claim talks
about: period, date, Total_PL_Percentage and Monthly_Return. -/
def projRow (r : MonthRow) : ℕ × Date × ℚ × ExtR :=
  (r.period, r.date, r.total_pl_percentage, r.monthly_return)

/-- Projection onto the fields shared by the aggregation step and the spec's
kept snapshot. -/
def projBase (r : MonthRow) : ℕ × Date × ℚ := (r.period, r.date, r.total_pl_percentage)

/-- The spec-side counterpart of `projBase`. -/
def specBase (s : Snapshot) : ℕ × Date × ℚ := (periodKey s, s.date, s.total_pl_percentage)

/-- Mean of a float64 series as `Series.mean()` computes it (exact rational
arithmetic in place of float rounding). -/
def meanQ (xs : List ℚ) : ℚ := xs.sum / xs.length

/-- Sample variance with the pandas default ddof=1, as inside
`Series.std()`. -/
def varQ (xs : List ℚ) : ℚ :=
  (xs.map (fun x => (x - meanQ xs) ^ 2)).sum / ((xs.length - 1 : ℕ) : ℚ)

/-- `daily_returns.mean() * 252` (portfolio_performance_analysis.py line
224); pandas yields NaN for the mean of an empty series. -/
def annualized_return (xs : List ℚ) : ExtR :=
  if xs.length = 0 then .nan else .fin (meanQ xs * 252)

/-- `daily_returns.std() * np.sqrt(252)` (line 225).  `sqrtv` abstracts the
float64 square root (used both inside `std` and for `np.sqrt(252)`); every
faithful model satisfies `sqrtv 0 = 0`.  pandas `std` is NaN for series of
length ≤ 1 (ddof=1). -/
def annualized_volatility (sqrtv : ℚ → ℚ) (xs : List ℚ) : ExtR :=
  if xs.length ≤ 1 then .nan else .fin (sqrtv (varQ xs) * sqrtv 252)

/-- `Sharpe_Ratio` (portfolio_performance_analysis.py line 226): annualized
return divided by annualized volatility with numpy float64 division — no
exception is possible; a zero denominator yields a signed infinity or NaN. -/
def sharpe_ratio (sqrtv : ℚ → ℚ) (xs : List ℚ) : ExtR :=
  extDiv (annualized_return xs) (annualized_volatility sqrtv xs)

/-- A concrete model of the float64 square root for witnesses: zero on
nonpositive input, positive on positive input.  Only those two properties of
the square root influence the Sharpe value on a zero-variance series (the
denominator is std * sqrt 252 = 0 regardless of the value of sqrt 252). -/
def sqrtModel (x : ℚ) : ℚ := if x ≤ 0 then 0 else 16

/-- The growth factor 1 + r/100 applied per entry of the
Total_PL_Percentage series (portfolio_performance_analysis.py line 241). -/
def growth_factor (r : ℚ) : ℚ := 1 + r / 100

/-- The cumulative growth series `(1 + pl/100).cumprod()` (line 241),
threaded from a running product `c`. -/
def cumList (c : ℚ) : List ℚ → List ℚ
  | [] => []
  | r :: rs => (c * growth_factor r) :: cumList (c * growth_factor r) rs

/-- The cumulative growth series of a Total_PL_Percentage history. -/
def cumulative_growth (pls : List ℚ) : List ℚ := cumList 1 pls

/-- The drawdown series (cumulative - running_max) / running_max * 100
(portfolio_performance_analysis.py lines 242-243), threading the running
product `c` and running maximum `m`. -/
def ddAux (c m : ℚ) : List ℚ → List ℚ
  | [] => []
  | r :: rs =>
      let c2 := c * growth_factor r
      let m2 := max m c2
      ((c2 - m2) / m2 * 100) :: ddAux c2 m2 rs

/-- The full drawdown series: the first entry's running maximum is the first
cumulative value itself. -/
def drawdown_series (pls : List ℚ) : List ℚ :=
  match pls with
  | [] => []
  | r :: rs => ((growth_factor r - growth_factor r) / growth_factor r * 100) ::
      ddAux (growth_factor r) (growth_factor r) rs

/-- `calculate_max_drawdown` (portfolio_performance_analysis.py lines
236-245): the minimum of the drawdown series (`drawdown.min()`).  The
function's `return 0` guard fires only when the performance history is None;
on a present but empty history the pandas min of the empty drawdown series
is NaN. -/
def calculate_max_drawdown (pls : List ℚ) : ExtR :=
  match drawdown_series pls with
  | [] => .nan
  | d :: ds => .fin (ds.foldl min d)

/-- Business-day test: `date.weekday() < 5` with day numbers counted from a
Monday epoch (portfolio_performance_analysis.py line 111). -/
def isMarketDay (d : ℕ) : Bool := d % 7 < 5

/-- `pd.date_range(start, end, freq='D')` filtered to weekdays
(portfolio_performance_analysis.py lines 108-111), with dates as day
numbers. -/
def marketDates (start today : ℕ) : List ℕ :=
  ((List.range (today + 1 - start)).map (fun i => start + i)).filter isMarketDay

/-- One synthesized performance record (portfolio_performance_analysis.py
lines 120-144). -/
structure SynthRow where
  date : ℕ
  total_investment : ℚ
  current_value : ℚ
  total_pl : ℚ
  total_pl_percentage : ExtR
deriving DecidableEq

/-- The body of the synthesis loop (lines 120-144): trend_factor
= 1 + days_since_start * 0.0001, value = investment * trend * (1 + draw)
where `draw` is the value sampled from np.random.normal(0.0008, 0.015). -/
def synthRow (inv : ℚ) (start : ℕ) (draw : ℚ) (d : ℕ) : SynthRow :=
  let trend := 1 + ((d - start : ℕ) : ℚ) / 10000
  let cv := inv * trend * (1 + draw)
  { date := d
    total_investment := inv
    current_value := cv
    total_pl := cv - inv
    total_pl_percentage := extMul (extDiv (.fin (cv - inv)) (.fin inv)) (.fin 100) }

/-- The synthesis loop: one normal draw is consumed from the process-global
RNG per market day.  The RNG is modelled by its (seed-determined) output
stream `g` together with the running count `off` of draws already consumed;
the final count is returned, as each call to the source function advances
the global generator state. -/
def synthRows (inv : ℚ) (start : ℕ) (g : ℕ → ℚ) : ℕ → List ℕ → List SynthRow × ℕ
  | off, [] => ([], off)
  | off, d :: ds =>
      let row := synthRow inv start (g off) d
      let rest := synthRows inv start g (off + 1) ds
      (row :: rest.1, rest.2)

/-- `create_performance_data_from_portfolio` (portfolio_performance_analysis.py
lines 93-149): build the weekday range from the earliest purchase date to
today and synthesize one record per day using unseeded
`np.random.normal` draws from the global RNG. -/
def create_performance_data_from_portfolio (g : ℕ → ℚ) (off : ℕ) (inv : ℚ)
    (start today : ℕ) : List SynthRow × ℕ :=
  synthRows inv start g off (marketDates start today)

/-- The Weight column of `analyze_stock_performance`
(portfolio_performance_analysis.py line 198): Current_Value divided by the
(NaN-skipping) column sum, times 100. -/
def stock_weights (rows : List PricedRow) : List ExtR :=
  let s := extSumSkipNa (rows.map (fun r => r.current_value))
  rows.map (fun r => extMul (extDiv r.current_value s) (.fin 100))

/-- The sum of the current values of the positions that have a price — what
the pandas NaN-skipping Current_Value sum computes. -/
def priced_total (positions : List Position) (prices : List (String × ℚ)) : ℚ :=
  (positions.filterMap (fun p => (prices.lookup p.symbol).map (fun v => v * p.quantity))).sum

/-- Extracts the finite value of a float64, if any. -/
def finPart : ExtR → Option ℚ
  | .fin q => some q
  | _ => none

/-- The Current_Value column produced by the valuation step, elementwise:
the price times quantity when the price is present, NaN otherwise. -/
lemma cv_map_form (positions : List Position) (prices : List (String × ℚ)) :
    (positions.map (mkPricedRow prices)).map (fun r => r.current_value) =
      positions.map (fun p =>
        match prices.lookup p.symbol with
        | some v => ExtR.fin (v * p.quantity)
        | none => ExtR.nan) := by
  rw [List.map_map]
  apply List.map_congr_left
  intro p _
  simp only [Function.comp_apply, mkPricedRow, priceLookup]
  cases prices.lookup p.symbol <;> rfl

/-- The NaN-skipping sum of the Current_Value column is the sum of the priced
positions' values. -/
lemma cv_sum : ∀ (positions : List Position) (prices : List (String × ℚ)),
    extSumSkipNa ((positions.map (mkPricedRow prices)).map (fun r => r.current_value)) =
      .fin (priced_total positions prices)
  | [], _ => rfl
  | p :: ps, prices => by
      have ih := cv_sum ps prices
      rw [cv_map_form] at ih ⊢
      cases h : prices.lookup p.symbol with
      | none =>
          simp only [List.map_cons, extSumSkipNa, h, ExtR.isNan, if_true]
          rw [ih]
          simp [priced_total, List.filterMap_cons, h]
      | some v =>
          simp only [List.map_cons, extSumSkipNa, h, ExtR.isNan] at ih ⊢
          rw [ih]
          simp [extAdd, priced_total, List.filterMap_cons, h]

/-- C2: with the module-level threshold being the str "Percentage", the very
first row's comparison abs(PL_Percentage) > ALERT_THRESHOLD raises a
TypeError, so `check_alerts` fails on every portfolio with at least one
position instead of returning an alert list. -/
theorem check_alerts_always_type_error (rows : List PricedRow) (hne : rows ≠ []) :
    check_alerts ALERT_THRESHOLD rows =
      .error "TypeError: unorderable types float and str" := by
  cases rows with
  | nil => exact absurd rfl hne
  | cons row rest => rfl

/-- A concrete priced row used to exercise the alert evaluator. -/
def exAlertRow : PricedRow := mkPricedRow [("TATAMOTORS", 900)] ⟨"TATAMOTORS", 800, 100⟩

/-- Witness for C2: a one-position portfolio makes `check_alerts` raise. -/
theorem check_alerts_always_type_error_witness :
    check_alerts ALERT_THRESHOLD [exAlertRow] =
      .error "TypeError: unorderable types float and str" :=
  check_alerts_always_type_error [exAlertRow] (List.cons_ne_nil _ _)

/-- C3: with a numeric nonnegative threshold, `check_alerts` returns exactly
one alert per position whose PL_Percentage strictly exceeds the threshold in
absolute value, in input order, marked PROFIT when above +threshold and LOSS
when below -threshold; a position exactly at either boundary does not
alert. -/
theorem check_alerts_matches_spec (t : ℚ) (rows : List PricedRow) (ht : 0 ≤ t)
    (hf : ∀ r ∈ rows, ∃ q, r.pl_percentage = ExtR.fin q) :
    check_alerts (.num (.fin t)) rows = .ok (rows.filterMap (spec_alert t)) := by
  induction rows with
  | nil => rfl
  | cons row rest ih =>
    obtain ⟨q, hq⟩ := hf row (List.mem_cons_self _ _)
    have hrest := ih (fun r hr => hf r (List.mem_cons_of_mem _ hr))
    by_cases habs : t < |q|
    · have hcase : (t < q ∧ ¬ q < -t) ∨ (¬ t < q ∧ q < -t) := by
        rcases lt_abs.mp habs with h1 | h1
        · exact Or.inl ⟨h1, by linarith⟩
        · exact Or.inr ⟨by linarith, by linarith⟩
      rcases hcase with ⟨h1, h2⟩ | ⟨h1, h2⟩
      · simp [check_alerts, hq, pyGtFloat, extAbs, extLt, pyNeg, extNeg, pyLtFloat,
          habs, h2, hrest, spec_alert, h1, List.filterMap_cons]
      · simp [check_alerts, hq, pyGtFloat, extAbs, extLt, pyNeg, extNeg, pyLtFloat,
          habs, h2, hrest, spec_alert, h1, List.filterMap_cons]
    · have h1 : ¬ t < q := fun h => habs (lt_abs.mpr (Or.inl h))
      have h2 : ¬ q < -t := fun h => habs (lt_abs.mpr (Or.inr (by linarith)))
      simp [check_alerts, hq, pyGtFloat, extAbs, extLt, pyNeg, extNeg, pyLtFloat,
        habs, hrest, spec_alert, h1, h2, List.filterMap_cons]

/-- A priced row whose PL_Percentage is the given value. -/
def exRowAt (q : ℚ) : PricedRow :=
  { symbol := "S", purchase_price := 100, quantity := 1,
    current_price := .fin (100 + q), current_value := .fin (100 + q),
    total_investment := 100, unrealized_pl := .fin q, pl_percentage := .fin q }

/-- Rows at exactly +5.00 percent, +5.01 percent and -5.01 percent. -/
def exBoundaryRows : List PricedRow :=
  [exRowAt 5, exRowAt (501 / 100), exRowAt (-501 / 100)]

/-- Witness for C3 at threshold 5: the +5.00 row does not alert, +5.01 is a
profit alert, -5.01 is a loss alert, in order. -/
theorem check_alerts_matches_spec_witness :
    check_alerts (.num (.fin 5)) exBoundaryRows =
      .ok [{ symbol := "S", type := "PROFIT ALERT",
             pl_percentage := .fin (501 / 100), current_price := .fin (100 + 501 / 100) },
           { symbol := "S", type := "LOSS ALERT",
             pl_percentage := .fin (-501 / 100), current_price := .fin (100 + -501 / 100) }] :=
  (check_alerts_matches_spec 5 exBoundaryRows (by norm_num)
    (by
      intro r hr
      fin_cases hr <;> exact ⟨_, rfl⟩)).trans
    (congrArg Except.ok
      (by norm_num [exBoundaryRows, exRowAt, spec_alert, List.filterMap_cons]))

/-- The spec scenario: A invested 1000 (price present), B invested 2000
(price present), C invested 500 (price unavailable). -/
def scenarioPositions : List Position := [⟨"A", 10, 100⟩, ⟨"B", 20, 100⟩, ⟨"C", 5, 100⟩]

/-- Prices for the scenario: A at 12, B at 18, C absent. -/
def scenarioPrices : List (String × ℚ) := [("A", 12), ("B", 18)]

/-- C5 amended: a missing price makes the position's Current_Value NaN (the
pandas missing marker), not 0; because the totals sum skips NaN, the
portfolio totals nevertheless satisfy total_current_value = sum of
current_value over the priced positions, and the scenario yields
total_investment 3500, total_current_value 3000, total_pl -500 and
total_pl_percentage -100/7 (about -14.29 percent). -/
theorem missing_price_totals (positions : List Position) (prices : List (String × ℚ)) :
    (calculate_portfolio_performance positions prices).2.total_current_value =
      .fin (priced_total positions prices) ∧
    (calculate_portfolio_performance positions prices).2.total_investment =
      (positions.map (fun p => p.purchase_price * p.quantity)).sum ∧
    (calculate_portfolio_performance scenarioPositions scenarioPrices).2 =
      { total_investment := 3500, total_current_value := .fin 3000,
        total_pl := .fin (-500), total_pl_percentage := .fin (-100 / 7) } := by
  refine ⟨?_, ?_, ?_⟩
  · simpa [calculate_portfolio_performance] using cv_sum positions prices
  · simp only [calculate_portfolio_performance, List.map_map]
    congr 1
  · have hA : scenarioPrices.lookup "A" = some 12 := by simp [scenarioPrices, List.lookup]
    have hB : scenarioPrices.lookup "B" = some 18 := by simp [scenarioPrices, List.lookup]
    have hC : scenarioPrices.lookup "C" = none := by simp [scenarioPrices, List.lookup]
    norm_num [calculate_portfolio_performance, scenarioPositions, mkPricedRow,
      priceLookup, hA, hB, hC, extMul, extSub, extNeg, extAdd, extDiv, extSumSkipNa,
      ExtR.isNan]

/-- Counterexample for C5 as stated: the unpriced position C has
current_value NaN, not 0 — the claim's "sets that position's current_value
to 0" is false of the code. -/
theorem missing_price_value_not_zero :
    ((calculate_portfolio_performance scenarioPositions scenarioPrices).1.map
      (fun r => r.current_value)) = [.fin 1200, .fin 1800, ExtR.nan] ∧
    ExtR.nan ≠ ExtR.fin 0 := by
  constructor
  · have hA : scenarioPrices.lookup "A" = some 12 := by simp [scenarioPrices, List.lookup]
    have hB : scenarioPrices.lookup "B" = some 18 := by simp [scenarioPrices, List.lookup]
    have hC : scenarioPrices.lookup "C" = none := by simp [scenarioPrices, List.lookup]
    norm_num [calculate_portfolio_performance, scenarioPositions, mkPricedRow,
      priceLookup, hA, hB, hC, extMul]
  · decide

/-- C7 amended: the Performance_History update appends the new row
unconditionally (no upsert); the resulting dates are strictly increasing and
duplicate-free exactly when the existing history is strictly sorted and the
new snapshot's date is strictly greater than every existing date. -/
theorem update_history_appends (existing : List Snapshot) (snapshot : Snapshot)
    (hs : List.Pairwise (fun a b => dateLtB a.date b.date = true) existing)
    (hnew : ∀ s ∈ existing, dateLtB s.date snapshot.date = true) :
    update_performance_history existing snapshot = existing ++ [snapshot] ∧
    List.Pairwise (fun a b => dateLtB a.date b.date = true)
      (update_performance_history existing snapshot) := by
  refine ⟨rfl, ?_⟩
  unfold update_performance_history
  rw [List.pairwise_append]
  refine ⟨hs, List.pairwise_singleton _ _, ?_⟩
  intro a ha b hb
  rcases List.mem_singleton.mp hb with rfl
  exact hnew a ha

/-- A history row dated 2025-03-10. -/
def histSnapA : Snapshot := ⟨⟨2025, 3, 10⟩, 1000, 1100, 100, 10⟩

/-- A history row dated 2025-03-11. -/
def histSnapB : Snapshot := ⟨⟨2025, 3, 11⟩, 1000, 1150, 150, 15⟩

/-- Witness for C7's amended statement: appending a strictly later snapshot
keeps the dates strictly increasing. -/
theorem update_history_appends_witness :
    update_performance_history [histSnapA] histSnapB = [histSnapA] ++ [histSnapB] ∧
    List.Pairwise (fun a b => dateLtB a.date b.date = true)
      (update_performance_history [histSnapA] histSnapB) :=
  update_history_appends [histSnapA] histSnapB (by decide) (by decide)

/-- Counterexample for C7 as stated: re-submitting a snapshot for a date that
is already present does not replace the prior entry — the row is appended and
the date column now contains a duplicate, violating the claimed upsert and
the strictly-increasing-dates invariant. -/
theorem update_history_duplicate_date :
    update_performance_history [histSnapA] histSnapA = [histSnapA, histSnapA] ∧
    ¬ ((update_performance_history [histSnapA] histSnapA).map
      (fun s => s.date)).Nodup := by
  constructor
  · rfl
  · decide

/-- A position with quantity 0, invalid per the spec's contract. -/
def invalidPos : Position := ⟨"X", 10, 0⟩

/-- C9 amended: the source performs no input validation — the Valuation
Calculator is total and processes every position, producing the full
PricedPosition list; a position with quantity 0 flows through with
total_investment 0 and a NaN PL_Percentage (0/0) instead of raising any
error. -/
theorem no_validation_invalid_positions (positions : List Position)
    (prices : List (String × ℚ)) :
    (calculate_portfolio_performance positions prices).1 =
      positions.map (mkPricedRow prices) ∧
    ∀ p ∈ positions, p.quantity = 0 →
      (mkPricedRow prices p).pl_percentage = ExtR.nan := by
  refine ⟨rfl, ?_⟩
  intro p _ hq
  cases h : prices.lookup p.symbol with
  | none =>
      simp [mkPricedRow, priceLookup, h, hq, extMul, extSub, extAdd, extNeg, extDiv]
  | some v =>
      simp [mkPricedRow, priceLookup, h, hq, extMul, extSub, extAdd, extNeg, extDiv,
        mul_zero]

/-- Witness for C9's amended statement at a concrete invalid position. -/
theorem no_validation_invalid_positions_witness :
    (mkPricedRow [("X", 12)] invalidPos).pl_percentage = ExtR.nan :=
  (no_validation_invalid_positions [invalidPos] [("X", 12)]).2 invalidPos
    (List.mem_singleton.mpr rfl) rfl

/-- Counterexample for C9 as stated: on a portfolio whose only position has
quantity 0 the calculator does not fail — it returns a PricedPosition row
(with NaN PL_Percentage) and a PortfolioSnapshot with total_investment 0. -/
theorem zero_quantity_processed :
    (calculate_portfolio_performance [invalidPos] [("X", 12)]).2.total_investment = 0 ∧
    ((calculate_portfolio_performance [invalidPos] [("X", 12)]).1.map
      (fun r => r.pl_percentage)) = [ExtR.nan] := by
  have hX : [("X", (12:ℚ))].lookup "X" = some 12 := by simp [List.lookup]
  constructor
  · norm_num [calculate_portfolio_performance, invalidPos, mkPricedRow, priceLookup, hX]
  · norm_num [calculate_portfolio_performance, invalidPos, mkPricedRow, priceLookup,
      hX, extMul, extSub, extAdd, extNeg, extDiv]

/-- Summing the per-position weight values, skipping the NaN of unpriced
positions, gives the sum over the priced values transformed by
c / S * 100. -/
lemma extSumSkipNa_weight_map :
    ∀ (positions : List Position) (prices : List (String × ℚ)) (S : ℚ),
    extSumSkipNa (positions.map (fun p =>
        match prices.lookup p.symbol with
        | some v => ExtR.fin (v * p.quantity / S * 100)
        | none => ExtR.nan)) =
      .fin (((positions.filterMap (fun p =>
        (prices.lookup p.symbol).map (fun v => v * p.quantity))).map
          (fun c => c / S * 100)).sum)
  | [], _, _ => rfl
  | p :: ps, prices, S => by
      have ih := extSumSkipNa_weight_map ps prices S
      cases h : prices.lookup p.symbol with
      | none =>
          simp only [List.map_cons, h, extSumSkipNa, ExtR.isNan, if_true]
          rw [ih]
          simp [List.filterMap_cons, h]
      | some v =>
          simp only [List.map_cons, h, extSumSkipNa, ExtR.isNan]
          rw [ih]
          simp [extAdd, List.filterMap_cons, h]

/-- Dividing every element by S and scaling by 100 commutes with the list
sum. -/
lemma sum_map_div_mul_100 (l : List ℚ) (S : ℚ) :
    (l.map (fun c => c / S * 100)).sum = l.sum / S * 100 := by
  induction l with
  | nil => simp
  | cons c cs ih =>
      simp only [List.map_cons, List.sum_cons, ih]
      ring

/-- C10 amended: whenever the priced positions' total current value is
nonzero, each priced position's Weight is its current_value divided by that
total times 100, an unpriced position's Weight is NaN, and the NaN-skipping
sum of the weights is exactly 100.  (If every price present is 0 the
denominator is 0, the weights are NaN and the sum is 0, so the hypothesis is
needed.) -/
theorem weights_sum_100 (positions : List Position) (prices : List (String × ℚ))
    (hS : priced_total positions prices ≠ 0) :
    stock_weights ((calculate_portfolio_performance positions prices).1) =
      positions.map (fun p =>
        match prices.lookup p.symbol with
        | some v => ExtR.fin (v * p.quantity / priced_total positions prices * 100)
        | none => ExtR.nan) ∧
    extSumSkipNa (stock_weights ((calculate_portfolio_performance positions prices).1)) =
      .fin 100 := by
  have hmap : stock_weights ((calculate_portfolio_performance positions prices).1) =
      positions.map (fun p =>
        match prices.lookup p.symbol with
        | some v => ExtR.fin (v * p.quantity / priced_total positions prices * 100)
        | none => ExtR.nan) := by
    have h1 : (calculate_portfolio_performance positions prices).1 =
        positions.map (mkPricedRow prices) := rfl
    rw [h1]
    simp only [stock_weights, cv_sum]
    rw [List.map_map]
    apply List.map_congr_left
    intro p _
    simp only [Function.comp_apply, mkPricedRow, priceLookup]
    cases h : prices.lookup p.symbol with
    | none => simp [extMul, extDiv]
    | some v => simp [extMul, extDiv, hS]
  refine ⟨hmap, ?_⟩
  rw [hmap, extSumSkipNa_weight_map, sum_map_div_mul_100]
  rw [show (positions.filterMap (fun p =>
      (prices.lookup p.symbol).map (fun v => v * p.quantity))).sum =
    priced_total positions prices from rfl]
  rw [div_self hS, one_mul]

/-- Witness for C10's amended statement on the three-position scenario. -/
theorem weights_sum_100_witness :
    extSumSkipNa (stock_weights
      ((calculate_portfolio_performance scenarioPositions scenarioPrices).1)) =
      .fin 100 :=
  (weights_sum_100 scenarioPositions scenarioPrices
    (by
      have hA : scenarioPrices.lookup "A" = some 12 := by simp [scenarioPrices, List.lookup]
      have hB : scenarioPrices.lookup "B" = some 18 := by simp [scenarioPrices, List.lookup]
      have hC : scenarioPrices.lookup "C" = none := by simp [scenarioPrices, List.lookup]
      simp only [priced_total, scenarioPositions, List.filterMap_cons, hA, hB, hC,
        Option.map_some', Option.map_none', List.filterMap_nil]
      norm_num)).2

/-- Counterexample for C10 as stated: a single position priced at 0 is a
"position with a valid price", yet its weight is NaN (0/0) and the weight sum
is 0, not 100. -/
theorem zero_price_weights_break :
    ([("A", (0:ℚ))].lookup "A" = some 0) ∧
    stock_weights ((calculate_portfolio_performance [⟨"A", 1, 1⟩] [("A", 0)]).1) =
      [ExtR.nan] ∧
    extSumSkipNa (stock_weights
      ((calculate_portfolio_performance [⟨"A", 1, 1⟩] [("A", 0)]).1)) ≠ .fin 100 := by
  have hA : [("A", (0:ℚ))].lookup "A" = some 0 := by simp [List.lookup]
  have hw : stock_weights ((calculate_portfolio_performance [⟨"A", 1, 1⟩] [("A", 0)]).1) =
      [ExtR.nan] := by
    norm_num [stock_weights, calculate_portfolio_performance, mkPricedRow,
      priceLookup, hA, extMul, extSub, extAdd, extNeg, extDiv, extSumSkipNa, ExtR.isNan]
  refine ⟨hA, hw, ?_⟩
  rw [hw]
  decide

/-- C4 amended: on a zero-variance daily-return series (all returns equal, at
least two entries) the Sharpe computation divides by a zero volatility and —
with numpy float64 semantics — yields a signed infinity matching the sign of
the mean (positive infinity for a positive constant return), and NaN only
when the mean is also zero; no exception is raised anywhere in the ratio
math, the computation being total.  This holds for every model `sqrtv` of the
float square root with sqrtv 0 = 0. -/
theorem sharpe_flat_series (sqrtv : ℚ → ℚ) (h0 : sqrtv 0 = 0) (c : ℚ) (n : ℕ)
    (hn : 2 ≤ n) :
    sharpe_ratio sqrtv (List.replicate n c) =
      (if 0 < c then ExtR.pinf else if c < 0 then ExtR.ninf else ExtR.nan) := by
  have hne : (n : ℚ) ≠ 0 := Nat.cast_ne_zero.mpr (by omega)
  have hmean : meanQ (List.replicate n c) = c := by
    simp only [meanQ, List.sum_replicate, List.length_replicate, nsmul_eq_mul]
    exact mul_div_cancel_left₀ c hne
  have hvar : varQ (List.replicate n c) = 0 := by
    simp [varQ, hmean, List.map_replicate, List.sum_replicate]
  have hlen0 : ¬ (List.replicate n c).length = 0 := by simp; omega
  have hlen1 : ¬ (List.replicate n c).length ≤ 1 := by simp; omega
  simp only [sharpe_ratio, annualized_return, annualized_volatility, hlen0, hlen1,
    if_false, hmean, hvar, h0, zero_mul]
  rcases lt_trichotomy c 0 with hc | hc | hc
  · have h1 : c * 252 < 0 := by nlinarith
    simp [extDiv, hc, not_lt_of_lt hc, h1, ne_of_lt h1, not_lt_of_lt h1]
  · simp [extDiv, hc]
  · have h1 : 0 < c * 252 := by nlinarith
    simp [extDiv, hc, h1, ne_of_gt h1]

/-- Witness for C4's amended statement: a flat series of two 0.5 returns has
Sharpe = positive infinity. -/
theorem sharpe_flat_series_witness :
    sharpe_ratio sqrtModel (List.replicate 2 ((1 : ℚ) / 2)) = ExtR.pinf :=
  (sharpe_flat_series sqrtModel (by norm_num [sqrtModel]) ((1 : ℚ) / 2) 2
    (le_refl 2)).trans (by norm_num)

/-- Counterexample for C4 as stated: the constant return series [1, 1] has
zero variance and nonzero mean, and the code's Sharpe is positive infinity —
not the claimed NaN/undefined sentinel. -/
theorem sharpe_flat_series_not_nan :
    sharpe_ratio sqrtModel [(1 : ℚ), 1] = ExtR.pinf ∧ ExtR.pinf ≠ ExtR.nan := by
  constructor
  · have hm : meanQ [(1 : ℚ), 1] = 1 := by norm_num [meanQ]
    have hv : varQ [(1 : ℚ), 1] = 0 := by norm_num [varQ, hm]
    norm_num [sharpe_ratio, annualized_return, annualized_volatility, hm, hv,
      sqrtModel, extDiv]
  · decide

/-- Two synthesis runs that read the same draw values at the positions they
consume produce identical row lists (induction on the market-day list,
generalizing the two RNG offsets). -/
lemma synthRows_congr (inv : ℚ) (start : ℕ) (g1 g2 : ℕ → ℚ) :
    ∀ (ds : List ℕ) (o1 o2 : ℕ),
      (∀ i < ds.length, g1 (o1 + i) = g2 (o2 + i)) →
      (synthRows inv start g1 o1 ds).1 = (synthRows inv start g2 o2 ds).1
  | [], _, _, _ => rfl
  | d :: ds, o1, o2, h => by
      have h0 : g1 o1 = g2 o2 := by
        have := h 0 (by simp)
        simpa using this
      have ht : ∀ i < ds.length, g1 (o1 + 1 + i) = g2 (o2 + 1 + i) := by
        intro i hi
        have := h (i + 1) (by simpa using Nat.succ_lt_succ hi)
        have e1 : o1 + (i + 1) = o1 + 1 + i := by omega
        have e2 : o2 + (i + 1) = o2 + 1 + i := by omega
        rw [e1, e2] at this
        exact this
      simp [synthRows, h0, synthRows_congr inv start g1 g2 ds (o1 + 1) (o2 + 1) ht]

/-- C8 amended: the synthesis is a deterministic function of the consumed RNG
draws, the start date, today's date and the investment amount — two runs whose
(seed-determined) global RNG streams agree on the draws actually consumed
produce identical snapshot sequences.  Because the source uses the unseeded
process-global generator and each call advances it, two successive calls read
disjoint stream segments and are not identical in general (see the
counterexample). -/
theorem synthesis_deterministic (g1 g2 : ℕ → ℚ) (o1 o2 : ℕ) (inv : ℚ)
    (start today : ℕ)
    (hagree : ∀ i < (marketDates start today).length, g1 (o1 + i) = g2 (o2 + i)) :
    (create_performance_data_from_portfolio g1 o1 inv start today).1 =
      (create_performance_data_from_portfolio g2 o2 inv start today).1 :=
  synthRows_congr inv start g1 g2 (marketDates start today) o1 o2 hagree

/-- An RNG draw stream taking value n/100 at position n. -/
def drawStreamA : ℕ → ℚ := fun n => (n : ℚ) / 100

/-- A second stream agreeing with `drawStreamA` only at position 0. -/
def drawStreamB : ℕ → ℚ := fun n => if n = 0 then 0 else 99

/-- Witness for C8's amended statement: over a one-market-day range only draw
0 is consumed, where the two streams agree, so the outputs coincide even
though the streams differ elsewhere. -/
theorem synthesis_deterministic_witness :
    (create_performance_data_from_portfolio drawStreamA 0 1000 0 0).1 =
      (create_performance_data_from_portfolio drawStreamB 0 1000 0 0).1 :=
  synthesis_deterministic drawStreamA drawStreamB 0 0 1000 0 0
    (by
      intro i hi
      have hlen : (marketDates 0 0).length = 1 := rfl
      rw [hlen] at hi
      interval_cases i
      · norm_num [drawStreamA, drawStreamB])

/-- Counterexample for C8 as stated: with the same start date and investment,
a second call right after a first one continues from the advanced global RNG
state and consumes different draws, producing a different snapshot
sequence — the unseeded source synthesis is not reproducible across calls. -/
theorem synthesis_not_reproducible_across_calls :
    (create_performance_data_from_portfolio drawStreamA 0 1000 0 0).1 ≠
      (create_performance_data_from_portfolio drawStreamA
        (create_performance_data_from_portfolio drawStreamA 0 1000 0 0).2 1000 0 0).1 := by
  intro h
  have h1 : (create_performance_data_from_portfolio drawStreamA 0 1000 0 0).1 =
      [synthRow 1000 0 (drawStreamA 0) 0] := rfl
  have h2 : (create_performance_data_from_portfolio drawStreamA
      (create_performance_data_from_portfolio drawStreamA 0 1000 0 0).2 1000 0 0).1 =
      [synthRow 1000 0 (drawStreamA 1) 0] := rfl
  rw [h1, h2] at h
  have := List.head_eq_of_cons_eq h
  have hcv := congrArg SynthRow.current_value this
  norm_num [synthRow, drawStreamA] at hcv

/-- A min-fold never exceeds its starting value. -/
lemma foldl_min_le_init : ∀ (l : List ℚ) (d : ℚ), l.foldl min d ≤ d
  | [], _ => le_refl _
  | x :: xs, d =>
      le_trans (foldl_min_le_init xs (min d x)) (min_le_left _ _)

/-- A min-fold never exceeds any list element. -/
lemma foldl_min_le_mem : ∀ (l : List ℚ) (d x : ℚ), x ∈ l → l.foldl min d ≤ x
  | y :: ys, d, x, hx => by
      rcases List.mem_cons.mp hx with rfl | hx
      · exact le_trans (foldl_min_le_init ys (min d x)) (min_le_right _ _)
      · exact foldl_min_le_mem ys (min d y) x hx

/-- A lower bound of the start and of every element bounds the min-fold. -/
lemma le_foldl_min : ∀ (l : List ℚ) (c d : ℚ), c ≤ d → (∀ x ∈ l, c ≤ x) →
    c ≤ l.foldl min d
  | [], _, _, hd, _ => hd
  | x :: xs, c, d, hd, hl =>
      le_foldl_min xs c (min d x) (le_min hd (hl x (List.mem_cons_self _ _)))
        (fun y hy => hl y (List.mem_cons_of_mem _ hy))

/-- Invariant of the drawdown recursion: starting from a positive cumulative
value `c` and positive running maximum `m ≥ c`, all drawdowns are ≤ 0, and
they are all 0 exactly when the cumulative series never falls below the
running maximum, i.e. the chain m ≤ c1 ≤ c2 ≤ ... holds. -/
lemma ddAux_spec : ∀ (rs : List ℚ) (c m : ℚ), 0 < c → 0 < m → c ≤ m →
    (∀ r ∈ rs, 0 < growth_factor r) →
    (∀ x ∈ ddAux c m rs, x ≤ 0) ∧
      ((∀ x ∈ ddAux c m rs, x = 0) ↔ List.Chain (· ≤ ·) m (cumList c rs))
  | [], c, m, _, _, _, _ => by
      constructor
      · intro x hx
        simp [ddAux] at hx
      · simp [ddAux, cumList]
  | r :: rs, c, m, hc, hm, hcm, hpos => by
      have hgr : 0 < growth_factor r := hpos r (List.mem_cons_self _ _)
      have hptail : ∀ x ∈ rs, 0 < growth_factor x :=
        fun x hx => hpos x (List.mem_cons_of_mem _ hx)
      set c2 := c * growth_factor r with hc2def
      have hc2 : 0 < c2 := mul_pos hc hgr
      by_cases hstep : m ≤ c2
      · have hmax : max m c2 = c2 := max_eq_right hstep
        have ih := ddAux_spec rs c2 c2 hc2 hc2 (le_refl _) hptail
        have hhead : (c2 - c2) / c2 * 100 = 0 := by
          rw [sub_self, zero_div, zero_mul]
        constructor
        · intro x hx
          simp only [ddAux, hmax, ← hc2def] at hx
          rcases List.mem_cons.mp hx with rfl | hx
          · exact le_of_eq hhead
          · exact ih.1 x hx
        · constructor
          · intro h
            have htail : ∀ x ∈ ddAux c2 c2 rs, x = 0 := by
              intro x hx
              apply h
              simp only [ddAux, hmax, ← hc2def]
              exact List.mem_cons_of_mem _ hx
            exact List.Chain.cons hstep (ih.2.mp htail)
          · intro h x hx
            rcases List.chain_cons.mp (by simpa [cumList, ← hc2def] using h) with ⟨_, htail⟩
            simp only [ddAux, hmax, ← hc2def] at hx
            rcases List.mem_cons.mp hx with rfl | hx
            · exact hhead
            · exact (ih.2.mpr htail) x hx
      · have hlt : c2 < m := lt_of_not_le hstep
        have hmax : max m c2 = m := max_eq_left (le_of_lt hlt)
        have ih := ddAux_spec rs c2 m hc2 hm (le_of_lt hlt) hptail
        have hheadneg : (c2 - m) / m * 100 < 0 := by
          have h1 : (c2 - m) / m < 0 := div_neg_of_neg_of_pos (by linarith) hm
          nlinarith
        constructor
        · intro x hx
          simp only [ddAux, hmax, ← hc2def] at hx
          rcases List.mem_cons.mp hx with rfl | hx
          · exact le_of_lt hheadneg
          · exact ih.1 x hx
        · constructor
          · intro h
            exfalso
            have : (c2 - m) / m * 100 = 0 := by
              apply h
              simp only [ddAux, hmax, ← hc2def]
              exact List.mem_cons_self _ _
            exact absurd this (ne_of_lt hheadneg)
          · intro h
            exfalso
            rcases List.chain_cons.mp (by simpa [cumList, ← hc2def] using h) with ⟨hle, _⟩
            exact hstep hle

/-- C6 amended: on an empty (but present) history the pandas min of the
empty drawdown series makes max_drawdown NaN; on a non-empty history in
which every growth factor 1 + r/100 is positive (every Total_PL_Percentage
entry above -100), max_drawdown is a finite value ≤ 0 that equals 0 exactly
when the cumulative growth series is non-decreasing.  Without the positivity
restriction the claim fails: a factor that turns the cumulative product
negative makes later drawdown entries positive while entry 0 stays 0, so
max_drawdown can be 0 on a strictly decreasing series (see the
counterexample). -/
theorem max_drawdown_nonpos_iff :
    calculate_max_drawdown [] = ExtR.nan ∧
    ∀ (pls : List ℚ), pls ≠ [] → (∀ r ∈ pls, 0 < growth_factor r) →
      ∃ m : ℚ, calculate_max_drawdown pls = .fin m ∧ m ≤ 0 ∧
        (m = 0 ↔ List.Chain' (· ≤ ·) (cumulative_growth pls)) := by
  refine ⟨rfl, ?_⟩
  intro pls hne hp
  cases pls with
  | nil => exact absurd rfl hne
  | cons r rs =>
      have hgr : 0 < growth_factor r := hp r (List.mem_cons_self _ _)
      have hptail : ∀ x ∈ rs, 0 < growth_factor x :=
        fun x hx => hp x (List.mem_cons_of_mem _ hx)
      have hspec := ddAux_spec rs (growth_factor r) (growth_factor r) hgr hgr
        (le_refl _) hptail
      have hhead : (growth_factor r - growth_factor r) / growth_factor r * 100 = 0 := by
        rw [sub_self, zero_div, zero_mul]
      have hcum : cumulative_growth (r :: rs) =
          growth_factor r :: cumList (growth_factor r) rs := by
        simp only [cumulative_growth, cumList, one_mul]
      refine ⟨(ddAux (growth_factor r) (growth_factor r) rs).foldl min 0, ?_, ?_, ?_⟩
      · simp only [calculate_max_drawdown, drawdown_series, hhead]
      · exact foldl_min_le_init _ 0
      · rw [hcum]
        constructor
        · intro h
          have hzero : ∀ x ∈ ddAux (growth_factor r) (growth_factor r) rs, x = 0 := by
            intro x hx
            have h1 : x ≤ 0 := hspec.1 x hx
            have h2 : (0 : ℚ) ≤ x := by
              rw [← h]
              exact foldl_min_le_mem _ 0 x hx
            linarith
          exact hspec.2.mp hzero
        · intro h
          have hzero := hspec.2.mpr h
          have h1 : (ddAux (growth_factor r) (growth_factor r) rs).foldl min 0 ≤ 0 :=
            foldl_min_le_init _ 0
          have h2 : (0 : ℚ) ≤ (ddAux (growth_factor r) (growth_factor r) rs).foldl min 0 :=
            le_foldl_min _ 0 0 (le_refl 0) (fun x hx => le_of_eq (hzero x hx).symm)
          linarith

/-- Witness for C6's amended statement at a small history with positive
growth factors. -/
theorem max_drawdown_nonpos_iff_witness :
    ∃ m : ℚ, calculate_max_drawdown [(10 : ℚ), -5] = .fin m ∧ m ≤ 0 ∧
      (m = 0 ↔ List.Chain' (· ≤ ·) (cumulative_growth [(10 : ℚ), -5])) :=
  max_drawdown_nonpos_iff.2 [(10 : ℚ), -5] (List.cons_ne_nil _ _)
    (by
      intro r hr
      fin_cases hr <;> norm_num [growth_factor])

/-- Counterexample for C6 as stated: the history with Total_PL_Percentage
entries -300 then 100 has cumulative growth series [-2, -4] — strictly
decreasing — yet max_drawdown is 0, because with a negative running maximum
the second drawdown entry is +100 while entry 0 is always 0. -/
theorem max_drawdown_zero_on_decreasing :
    calculate_max_drawdown [(-300 : ℚ), 100] = .fin 0 ∧
    ¬ List.Chain' (· ≤ ·) (cumulative_growth [(-300 : ℚ), 100]) := by
  constructor
  · norm_num [calculate_max_drawdown, drawdown_series, ddAux, growth_factor,
      max_def, min_def]
  · simp only [cumulative_growth, cumList, List.chain'_cons, List.chain'_singleton,
      growth_factor]
    norm_num

/-- Snapshots of the same calendar month share a period key. -/
lemma key_eq_of_sameMonth (a b : Snapshot) (h : sameMonth a b = true) :
    periodKey a = periodKey b := by
  simp only [sameMonth, Bool.and_eq_true, beq_iff_eq] at h
  simp [periodKey, h.1, h.2]

/-- With valid month numbers, equal period keys mean the same
(year, month). -/
lemma sameMonth_of_key_eq (a b : Snapshot)
    (ha : 1 ≤ a.date.m ∧ a.date.m ≤ 12) (hb : 1 ≤ b.date.m ∧ b.date.m ≤ 12)
    (h : periodKey a = periodKey b) : sameMonth a b = true := by
  simp only [periodKey] at h
  simp only [sameMonth, Bool.and_eq_true, beq_iff_eq]
  omega

/-- The period key is monotone along the date order for valid months. -/
lemma periodKey_mono (a b : Snapshot)
    (ha : 1 ≤ a.date.m ∧ a.date.m ≤ 12) (hb : 1 ≤ b.date.m ∧ b.date.m ≤ 12)
    (hle : dateLeB a.date b.date = true) : periodKey a ≤ periodKey b := by
  simp only [dateLeB, Bool.or_eq_true, Bool.and_eq_true, beq_iff_eq,
    decide_eq_true_eq] at hle
  simp only [periodKey]
  omega

/-- Inserting a lower bound into any list puts it at the front. -/
lemma orderedInsert_of_forall_le (k : ℕ) (l : List ℕ) (h : ∀ x ∈ l, k ≤ x) :
    List.orderedInsert (· ≤ ·) k l = k :: l := by
  cases l with
  | nil => rfl
  | cons x xs =>
      simp only [List.orderedInsert]
      rw [if_pos (h x (List.mem_cons_self _ _))]

/-- Insertion sort of a list headed by a lower bound keeps it first. -/
lemma insertionSort_cons_of_forall_le (k : ℕ) (l : List ℕ) (h : ∀ x ∈ l, k ≤ x) :
    List.insertionSort (· ≤ ·) (k :: l) = k :: List.insertionSort (· ≤ ·) l := by
  simp only [List.insertionSort]
  apply orderedInsert_of_forall_le
  intro x hx
  exact h x ((List.perm_insertionSort (· ≤ ·) l).mem_iff.mp hx)

/-- The group keys of a history are exactly its period keys. -/
lemma mem_monthKeys (h : List Snapshot) (k : ℕ) :
    k ∈ monthKeys h ↔ k ∈ h.map periodKey := by
  simp [monthKeys, (List.perm_insertionSort (· ≤ ·) _).mem_iff, List.mem_dedup]

/-- If the computed month rows and the spec's kept snapshots agree on period,
date and Total_PL_Percentage, the Monthly_Return pass produces equal
projected rows. -/
lemma withReturns_proj : ∀ (rows : List MonthRow) (snaps : List Snapshot)
    (prev : Option ℚ), rows.map projBase = snaps.map specBase →
    (withReturns prev rows).map projRow = specReturns prev snaps
  | [], snaps, prev, h => by
      cases snaps with
      | nil => rfl
      | cons s ss => simp at h
  | r :: rs, snaps, prev, h => by
      cases snaps with
      | nil => simp at h
      | cons s ss =>
          simp only [List.map_cons, List.cons.injEq] at h
          obtain ⟨hhead, htail⟩ := h
          simp only [projBase, specBase, Prod.mk.injEq] at hhead
          obtain ⟨hper, hdate, hq⟩ := hhead
          simp only [withReturns, specReturns, List.map_cons]
          congr 1
          · simp [projRow, specRow, hper, hdate, hq]
          · rw [hq]
            exact withReturns_proj rs ss (some s.total_pl_percentage) htail

/-- Grouping equivalence: on a history whose period keys are nondecreasing
(the frame is date-sorted) with valid month numbers, the pandas
groupby-aggregate of `calculate_monthly_returns` keeps, for each month in
ascending order, exactly the last snapshot of that month — the grouping the
spec describes. -/
lemma monthRows_proj : ∀ (h : List Snapshot),
    (h.map periodKey).Pairwise (· ≤ ·) →
    (∀ s ∈ h, 1 ≤ s.date.m ∧ s.date.m ≤ 12) →
    ((monthKeys h).map (monthAgg h)).map projBase = (lastPerMonth h).map specBase
  | [], _, _ => rfl
  | [s], _, _ => by
      have h1 : monthKeys [s] = [periodKey s] := by
        simp [monthKeys, List.insertionSort, List.orderedInsert]
      rw [h1]
      simp [monthAgg, lastPerMonth, List.filter_cons, projBase, specBase]
  | s :: s2 :: t', hp, hm => by
      simp only [List.map_cons] at hp
      rcases List.pairwise_cons.mp hp with ⟨hks, hkt⟩
      have hkt' : ((s2 :: t').map periodKey).Pairwise (· ≤ ·) := by
        simpa using hkt
      have hmt : ∀ x ∈ s2 :: t', 1 ≤ x.date.m ∧ x.date.m ≤ 12 :=
        fun x hx => hm x (List.mem_cons_of_mem _ hx)
      have hms := hm s (List.mem_cons_self _ _)
      have hks2 : periodKey s ≤ periodKey s2 := by
        apply hks
        simp
      by_cases hkeq : periodKey s = periodKey s2
      · -- the head snapshot shares its month with the next one:
        -- the group keys and the grouped aggregates are unchanged and the
        -- spec drops the head snapshot.
        have hmem : periodKey s ∈ (s2 :: t').map periodKey := by
          simp only [List.map_cons, List.mem_cons]
          exact Or.inl hkeq
        have hmk : monthKeys (s :: s2 :: t') = monthKeys (s2 :: t') := by
          simp only [monthKeys, List.map_cons]
          rw [List.dedup_cons_of_mem (by simpa using hmem)]
        have hperkey : ∀ k' ∈ monthKeys (s2 :: t'),
            projBase (monthAgg (s :: s2 :: t') k') = projBase (monthAgg (s2 :: t') k') := by
          intro k' hk'
          by_cases hk : periodKey s = k'
          · have hs2k : periodKey s2 = k' := by rw [← hkeq]; exact hk
            have hs2f : s2 ∈ (s2 :: t').filter (fun x => periodKey x == k') := by
              apply List.mem_filter.mpr
              exact ⟨List.mem_cons_self _ _, by simp [hs2k]⟩
            have hfil : (s :: s2 :: t').filter (fun x => periodKey x == k') =
                s :: (s2 :: t').filter (fun x => periodKey x == k') := by
              rw [List.filter_cons]
              simp [hk]
            cases hft : (s2 :: t').filter (fun x => periodKey x == k') with
            | nil => rw [hft] at hs2f; simp at hs2f
            | cons y ys =>
                simp only [monthAgg, hfil, hft, projBase, List.getLast?_cons_cons]
          · have hfil : (s :: s2 :: t').filter (fun x => periodKey x == k') =
                (s2 :: t').filter (fun x => periodKey x == k') := by
              rw [List.filter_cons]
              simp [hk]
            simp only [monthAgg, hfil]
        have hsame : sameMonth s s2 = true :=
          sameMonth_of_key_eq s s2 hms (hmt s2 (List.mem_cons_self _ _)) hkeq
        have hlast : lastPerMonth (s :: s2 :: t') = lastPerMonth (s2 :: t') := by
          simp [lastPerMonth, hsame]
        calc ((monthKeys (s :: s2 :: t')).map (monthAgg (s :: s2 :: t'))).map projBase
            = ((monthKeys (s2 :: t')).map (monthAgg (s :: s2 :: t'))).map projBase := by
              rw [hmk]
          _ = ((monthKeys (s2 :: t')).map (monthAgg (s2 :: t'))).map projBase := by
              rw [List.map_map, List.map_map]
              exact List.map_congr_left (fun k' hk' => hperkey k' hk')
          _ = (lastPerMonth (s2 :: t')).map specBase := monthRows_proj (s2 :: t') hkt' hmt
          _ = (lastPerMonth (s :: s2 :: t')).map specBase := by rw [hlast]
      · -- the head snapshot is the unique (and last) snapshot of its month:
        -- its key sorts first, its group is the singleton [s], and the spec
        -- keeps it.
        have hklt : ∀ b ∈ (s2 :: t').map periodKey, periodKey s < b := by
          intro b hb
          simp only [List.map_cons, List.mem_cons] at hb
          rcases hb with rfl | hb
          · exact lt_of_le_of_ne hks2 hkeq
          · rcases List.pairwise_cons.mp (by simpa using hkt' :
                (periodKey s2 :: t'.map periodKey).Pairwise (· ≤ ·)) with ⟨hs2b, _⟩
            exact lt_of_lt_of_le (lt_of_le_of_ne hks2 hkeq) (hs2b b hb)
        have hknot : periodKey s ∉ (s2 :: t').map periodKey :=
          fun hmem => lt_irrefl _ (hklt _ hmem)
        have hmk : monthKeys (s :: s2 :: t') = periodKey s :: monthKeys (s2 :: t') := by
          simp only [monthKeys, List.map_cons]
          rw [List.dedup_cons_of_not_mem (by simpa using hknot)]
          apply insertionSort_cons_of_forall_le
          intro x hx
          exact le_of_lt (hklt x (by simpa using List.mem_dedup.mp hx))
        have hfilnil : (s2 :: t').filter (fun x => periodKey x == periodKey s) = [] := by
          apply List.filter_eq_nil_iff.mpr
          intro x hx
          simp only [beq_iff_eq]
          have := hklt (periodKey x) (List.mem_map_of_mem _ hx)
          omega
        have hagg_head : projBase (monthAgg (s :: s2 :: t') (periodKey s)) = specBase s := by
          have hfil : (s :: s2 :: t').filter (fun x => periodKey x == periodKey s) = [s] := by
            rw [List.filter_cons]
            simp [hfilnil]
          simp [monthAgg, hfil, projBase, specBase]
        have hagg_tail : ∀ k' ∈ monthKeys (s2 :: t'),
            monthAgg (s :: s2 :: t') k' = monthAgg (s2 :: t') k' := by
          intro k' hk'
          have hk'mem : k' ∈ (s2 :: t').map periodKey := (mem_monthKeys _ _).mp hk'
          have hne : ¬ periodKey s = k' := by
            have := hklt k' hk'mem
            omega
          have hfil : (s :: s2 :: t').filter (fun x => periodKey x == k') =
              (s2 :: t').filter (fun x => periodKey x == k') := by
            rw [List.filter_cons]
            simp [hne]
          simp only [monthAgg, hfil]
        have hsamef : ¬ sameMonth s s2 = true :=
          fun hc => hkeq (key_eq_of_sameMonth s s2 hc)
        have hlast : lastPerMonth (s :: s2 :: t') = s :: lastPerMonth (s2 :: t') := by
          simp [lastPerMonth, hsamef]
        rw [hmk, hlast, List.map_cons, List.map_cons, List.map_cons, hagg_head]
        congr 1
        have htail : List.map (projBase ∘ monthAgg (s :: s2 :: t')) (monthKeys (s2 :: t')) =
            List.map (projBase ∘ monthAgg (s2 :: t')) (monthKeys (s2 :: t')) :=
          List.map_congr_left (fun k' hk' => congrArg projBase (hagg_tail k' hk'))
        rw [List.map_map, htail, ← List.map_map]
        exact monthRows_proj (s2 :: t') hkt' hmt

/-- The spec's monthly-aggregation example: Jan 31 with Total_PL_Percentage
2 and Feb 28 with 5. -/
def exampleHistory : List Snapshot :=
  [⟨⟨2024, 1, 31⟩, 1000, 1020, 20, 2⟩, ⟨⟨2024, 2, 28⟩, 1000, 1050, 50, 5⟩]

/-- C1: for every date-sorted history with valid month numbers,
`calculate_monthly_returns` groups by (year, month), keeps the last snapshot
of each month, and sets Monthly_Return to the percent change of
Total_PL_Percentage against the prior month with the first month 0 — it
agrees with the spec-side construction on every field the claim mentions;
and on the Jan 2-percent / Feb 5-percent example it yields monthly returns
0 and 150. -/
theorem calculate_monthly_returns_matches_spec :
    (∀ (h : List Snapshot),
        List.Pairwise (fun a b => dateLeB a.date b.date = true) h →
        (∀ s ∈ h, 1 ≤ s.date.m ∧ s.date.m ≤ 12) →
        (calculate_monthly_returns h).map projRow = monthlyReturnsSpec h) ∧
    (calculate_monthly_returns exampleHistory).map (fun r => r.monthly_return) =
      [.fin 0, .fin 150] := by
  have main : ∀ (h : List Snapshot),
      List.Pairwise (fun a b => dateLeB a.date b.date = true) h →
      (∀ s ∈ h, 1 ≤ s.date.m ∧ s.date.m ≤ 12) →
      (calculate_monthly_returns h).map projRow = monthlyReturnsSpec h := by
    intro h hs hm
    have hkeys : (h.map periodKey).Pairwise (· ≤ ·) := by
      rw [List.pairwise_map]
      refine List.Pairwise.imp_of_mem ?_ hs
      intro a b ha hb hab
      exact periodKey_mono a b (hm a ha) (hm b hb) hab
    unfold calculate_monthly_returns monthlyReturnsSpec
    exact withReturns_proj _ _ none (monthRows_proj h hkeys hm)
  refine ⟨main, ?_⟩
  have h1 := main exampleHistory (by decide) (by decide)
  have h2 : (calculate_monthly_returns exampleHistory).map (fun r => r.monthly_return) =
      ((calculate_monthly_returns exampleHistory).map projRow).map
        (fun q => q.2.2.2) := by
    rw [List.map_map]
    rfl
  rw [h2, h1]
  norm_num [monthlyReturnsSpec, lastPerMonth, sameMonth, specReturns, specRow,
    pctChangeTimes100, fillna0, extMul, extDiv, exampleHistory]

/-- Witness for C1 at the spec's example history. -/
theorem calculate_monthly_returns_matches_spec_witness :
    (calculate_monthly_returns exampleHistory).map projRow =
      monthlyReturnsSpec exampleHistory :=
  calculate_monthly_returns_matches_spec.1 exampleHistory (by decide) (by decide)
